import Mathlib

/-!
Verification of the load-testing engine in `src/app/api/ghz/run/route.ts`.

JavaScript numbers are embedded as rationals (`ℚ`); integer counters as `Nat`
or `Int` (matching sign behaviour where it matters).  `Array.prototype.sort`
with a numeric comparator, applied to a copy (`[...latencies].sort(...)`), is
embedded as `List.insertionSort (· ≤ ·)`: for a list of numbers any correct
comparison sort produces the same list, so the choice of algorithm is
immaterial to the value.  The concurrency of the worker pool is embedded as a
nondeterministic small-step transition system whose atomic transitions are the
synchronous segments between `await` points of `runWorker`.
-/

namespace GhzNds

/-- One completed call's record (interface `CallResult` in route.ts):
latency in nanoseconds, error message (`null` on success, embedded as
`Option`), and the status classification string. -/
structure CallResult where
  latency : ℚ
  error : Option String
  statusCode : String
deriving DecidableEq, Repr

/-- `hrtimeToNs(hr) = hr[0] * 1e9 + hr[1]`. -/
def hrtimeToNs (hr : ℚ × ℚ) : ℚ := hr.1 * 1e9 + hr.2

/-- One histogram bucket object `{ mark, count, frequency }` from
`buildHistogram`. -/
structure Bucket where
  mark : ℚ
  count : Nat
  frequency : ℚ
deriving DecidableEq, Repr

/-- The bucket index chosen for a latency `lat`:
`let idx = Math.floor((lat - min) / bucketSize); if (idx >= bucketCount) idx = bucketCount - 1;`.
In route.ts every `lat` satisfies `min ≤ lat`, so the floor is never negative
there; `Int.toNat` on the unclamped branch is exact on that domain. -/
def bucketIdx (mn bucketSize : ℚ) (bucketCount : Nat) (lat : ℚ) : Nat :=
  let j : ℤ := ⌊(lat - mn) / bucketSize⌋
  if (bucketCount : ℤ) ≤ j then bucketCount - 1 else j.toNat

/-- `buckets[idx].count++` on a list of `(mark, count)` pairs. -/
def bumpAt : Nat → List (ℚ × Nat) → List (ℚ × Nat)
  | _, [] => []
  | 0, b :: bs => (b.1, b.2 + 1) :: bs
  | i + 1, b :: bs => b :: bumpAt i bs

/-- `buildHistogram(latencies, bucketCount = 10)` from route.ts.  Note the
marks are `(min + bucketSize * (i + 1)) / 1e9` — the nanosecond bound divided
by `1e9`, i.e. reported in seconds. -/
def buildHistogram (latencies : List ℚ) (bucketCount : Nat := 10) : List Bucket :=
  if latencies.isEmpty then []
  else
    let sorted := latencies.insertionSort (· ≤ ·)
    let mn := sorted.headI
    let mx := sorted.getLastD 0
    if mn = mx then
      [⟨mn / 1e9, latencies.length, 1⟩]
    else
      let bucketSize := (mx - mn) / (bucketCount : ℚ)
      let init : List (ℚ × Nat) :=
        (List.range bucketCount).map (fun (i : ℕ) => ((mn + bucketSize * ((i : ℚ) + 1)) / 1e9, 0))
      let filled := latencies.foldl (fun bs lat => bumpAt (bucketIdx mn bucketSize bucketCount lat) bs) init
      filled.map (fun b => ⟨b.1, b.2, (b.2 : ℚ) / (latencies.length : ℚ)⟩)

/-- One row `{ percentage, latency }` of the latency-distribution table. -/
structure PercentileEntry where
  percentage : Nat
  latency : ℚ
deriving DecidableEq, Repr

/-- The fixed percentile marks `[10, 25, 50, 75, 90, 95, 99]`. -/
def percentileMarks : List Nat := [10, 25, 50, 75, 90, 95, 99]

/-- `buildLatencyDistribution(latencies)` from route.ts:
`idx = Math.max(0, Math.ceil((p / 100) * sorted.length) - 1)`, report
`{ percentage: p, latency: sorted[idx] }`.  The index is always in range for a
non-empty list; `getD _ 0` only supplies the (unreachable) out-of-range
default. -/
def buildLatencyDistribution (latencies : List ℚ) : List PercentileEntry :=
  if latencies.isEmpty then []
  else
    let sorted := latencies.insertionSort (· ≤ ·)
    percentileMarks.map (fun (p : Nat) =>
      let idx : ℤ := max 0 (⌈((p : ℚ) / 100) * (sorted.length : ℚ)⌉ - 1)
      ⟨p, sorted.getD idx.toNat 0⟩)

/-- `average = count > 0 ? totalLatencyNs / count : 0` where
`totalLatencyNs = latencies.reduce((a, b) => a + b, 0)`. -/
def averageLatency (latencies : List ℚ) : ℚ :=
  if 0 < latencies.length then latencies.sum / (latencies.length : ℚ) else 0

/-- `fastest = count > 0 ? Math.min(...latencies) : 0`. -/
def fastestLatency (latencies : List ℚ) : ℚ :=
  match latencies with
  | [] => 0
  | x :: xs => xs.foldl min x

/-- `slowest = count > 0 ? Math.max(...latencies) : 0`. -/
def slowestLatency (latencies : List ℚ) : ℚ :=
  match latencies with
  | [] => 0
  | x :: xs => xs.foldl max x

/-- `rps = totalDurationNs > 0 ? (count / (totalDurationNs / 1e9)) : 0`. -/
def requestsPerSecond (count : Nat) (totalDurationNs : ℚ) : ℚ :=
  if 0 < totalDurationNs then (count : ℚ) / (totalDurationNs / 1e9) else 0

/-- JavaScript's short-circuit `a || b` on strings: the empty string is the
only falsy string value reachable here. -/
def jsOr (a b : String) : String := if a = "" then b else a

/-- A `grpc.ServiceError` as consumed by `makeUnaryCall`: `code` may be
absent (`err.code?`), `message` may be the empty string (falsy). -/
structure GrpcServiceError where
  code : Option Int
  message : String
deriving DecidableEq, Repr

/-- The method-name resolution before the run:
`const methodName = clientMethods.find(m => m.toLowerCase() === method.toLowerCase()) || method;`
— when no client method matches case-insensitively, `find` yields
`undefined` (falsy, like a hypothetical empty name) and the raw request
string is kept as the member name. -/
def resolveMethodName (clientMethods : List String) (method : String) : String :=
  jsOr ((clientMethods.find? (fun m => m.toLower == method.toLower)).getD "") method

/-- `makeUnaryCall(client, methodName, ...)`.  The body immediately invokes
`client[methodName](requestData, metadataObj, cb)` inside the promise
executor.  `client` is modelled as a map from member name to the callback
outcome the transport would deliver (`none` of the outer `Option` when the
name matches no client method: then `client[methodName]` is `undefined`, the
executor throws a `TypeError`, and `new Promise` turns that throw into a
rejection — embedded as `Except.error` — which `await`/`Promise.all`
re-raise).  When the member exists, the callback fires and both branches
`resolve` a `CallResult` (`Except.ok`).  `statusLookup` models the external
`grpc.status` reverse enum (code number to canonical name); an absent entry
or an absent `err.code` falls back to the synthesized `UNKNOWN(...)` tag
(JavaScript renders an absent code as the text `undefined` in the template).
The message chain is `err.message || err.code?.toString() || 'Unknown error'`. -/
def makeUnaryCall (statusLookup : Int → Option String)
    (client : String → Option (Option GrpcServiceError))
    (methodName : String) (latencyNs : ℚ) : Except String CallResult :=
  match client methodName with
  | none => Except.error "TypeError: client[methodName] is not a function"
  | some cb =>
      match cb with
      | none => Except.ok ⟨latencyNs, none, "OK"⟩
      | some e =>
          let msg : String :=
            jsOr e.message
              (match e.code with
               | some c => jsOr (toString c) "Unknown error"
               | none => "Unknown error")
          let status : String :=
            match e.code with
            | some c =>
                (match statusLookup c with
                 | some name => jsOr name ("UNKNOWN(" ++ toString c ++ ")")
                 | none => "UNKNOWN(" ++ toString c ++ ")")
            | none => "UNKNOWN(undefined)"
          Except.ok ⟨latencyNs, some msg, status⟩

/-- The `config` object of the request body: `c`, `n` and `data` may each be
absent.  `data` is carried as an opaque JSON text; `none` models absence. -/
structure StepConfig where
  c : Option Int
  n : Option Int
  data : Option String
deriving DecidableEq, Repr

/-- The request body fields the handler destructures.  A field that is
JavaScript-falsy (absent, `null`, or the empty string) is embedded as `""`:
the handler's `!field` test cannot tell those apart. -/
structure RequestBody where
  protoContent : String
  service : String
  method : String
  address : String
  config : Option StepConfig
deriving DecidableEq, Repr

/-- The `missing` list accumulated by the validation block, in source order. -/
def missingFields (b : RequestBody) : List String :=
  (if b.protoContent = "" then ["protoContent"] else []) ++
  (if b.service = "" then ["service"] else []) ++
  (if b.method = "" then ["method"] else []) ++
  (if b.address = "" then ["address"] else [])

/-- The validation gate `if (!protoContent || !service || !method || !address)`:
`some missing` is the 400 response body's field list, `none` means the handler
proceeds to run the load test. -/
def validationError (b : RequestBody) : Option (List String) :=
  if b.protoContent = "" ∨ b.service = "" ∨ b.method = "" ∨ b.address = "" then
    some (missingFields b)
  else none

/-- `const concurrency = config?.c || 10;` — `0` is falsy, so an explicit zero
is replaced by the default. -/
def effectiveConcurrency (cfg : Option StepConfig) : Int :=
  match cfg with
  | none => 10
  | some s =>
      match s.c with
      | none => 10
      | some v => if v = 0 then 10 else v

/-- `const totalRequests = config?.n || 100;`. -/
def effectiveTotalRequests (cfg : Option StepConfig) : Int :=
  match cfg with
  | none => 100
  | some s =>
      match s.n with
      | none => 100
      | some v => if v = 0 then 100 else v

/-- `const requestData = config?.data || \x7b\x7d;` — an absent payload is
replaced by the empty object, rendered here as its JSON text. -/
def effectiveRequestData (cfg : Option StepConfig) : String :=
  match cfg with
  | none => "\x7b\x7d"
  | some s =>
      match s.data with
      | none => "\x7b\x7d"
      | some d => d

/-- The worker-spawn loop bound:
`for (let i = 0; i < Math.min(concurrency, totalRequests); i++)`.
A negative bound spawns no workers. -/
def numWorkers (concurrency totalRequests : Int) : Nat :=
  (min concurrency totalRequests).toNat

/-- The observable phase of one `runWorker` unit between `await` points:
about to test the loop guard (`idle`), awaiting `makeUnaryCall` after having
claimed index `idx` (`inCall idx`), or exited the loop (`stopped`). -/
inductive WStatus where
  | idle
  | inCall (idx : Nat)
  | stopped
deriving DecidableEq, Repr

/-- The shared state of the worker pool: the shared `completed` counter, the
`allResults` collection (represented by the claimed index each pushed result
came from), and the multiset of worker phases (worker identity is
irrelevant to the dynamics). -/
structure PoolState where
  completed : Nat
  results : List Nat
  workers : Multiset WStatus
deriving DecidableEq

/-- One atomic transition of the pool, for `totalRequests = T`.  JavaScript's
event loop never interleaves inside a synchronous segment, so
`while (completed < totalRequests) { const idx = completed++; ... }` reads the
guard and increments the counter atomically (the subsequent
`if (idx >= totalRequests) break` is dead code under that atomicity); the only
suspension point is the `await makeUnaryCall(...)`, after which the result is
pushed.  `T` is an `Int` because a negative `config.n` flows through
unchecked. -/
inductive WorkerStep (T : Int) : PoolState → PoolState → Prop
  | claim (c : Nat) (res : List Nat) (ws : Multiset WStatus) (h : (c : Int) < T) :
      WorkerStep T ⟨c, res, WStatus.idle ::ₘ ws⟩ ⟨c + 1, res, WStatus.inCall c ::ₘ ws⟩
  | exhaust (c : Nat) (res : List Nat) (ws : Multiset WStatus) (h : ¬ (c : Int) < T) :
      WorkerStep T ⟨c, res, WStatus.idle ::ₘ ws⟩ ⟨c, res, WStatus.stopped ::ₘ ws⟩
  | finish (c : Nat) (res : List Nat) (ws : Multiset WStatus) (idx : Nat) :
      WorkerStep T ⟨c, res, WStatus.inCall idx ::ₘ ws⟩ ⟨c, res ++ [idx], WStatus.idle ::ₘ ws⟩

/-- The pool state right after the spawn loop: counter zero, no results,
`min(concurrency, totalRequests)` workers about to test the guard. -/
def initState (concurrency totalRequests : Int) : PoolState :=
  ⟨0, [], Multiset.replicate (numWorkers concurrency totalRequests) WStatus.idle⟩

/-- Reachability under any interleaving of worker transitions. -/
def Reachable (T : Int) : PoolState → PoolState → Prop :=
  Relation.ReflTransGen (WorkerStep T)

/-- `Promise.all(workers)` has resolved: every worker has left its loop. -/
def Terminal (s : PoolState) : Prop := ∀ w ∈ s.workers, w = WStatus.stopped

/-- The indices currently claimed but not yet pushed (calls in flight). -/
def inflight (ws : Multiset WStatus) : Multiset Nat :=
  ws.filterMap (fun w => match w with
    | WStatus.inCall i => some i
    | _ => none)

/-- The inductive invariant of the pool: the counter never exceeds
`T.toNat`; the pushed results together with the in-flight claims are exactly
the indices `0, ..., completed − 1`, each once; and a stopped worker
certifies that the counter has reached `T.toNat`. -/
def Inv (T : Int) (s : PoolState) : Prop :=
  s.completed ≤ T.toNat ∧
  ((s.results : Multiset Nat) + inflight s.workers = (List.range s.completed : Multiset Nat)) ∧
  (WStatus.stopped ∈ s.workers → s.completed = T.toNat)

/-- `sorted[0]` in `buildHistogram`: the head of the ascending copy-sort. -/
def sortedMin (l : List ℚ) : ℚ := (l.insertionSort (· ≤ ·)).headI

/-- `sorted[sorted.length - 1]` in `buildHistogram`: the last element of the
ascending copy-sort. -/
def sortedMax (l : List ℚ) : ℚ := (l.insertionSort (· ≤ ·)).getLastD 0

lemma inflight_cons_idle (ws : Multiset WStatus) :
    inflight (WStatus.idle ::ₘ ws) = inflight ws :=
  Multiset.filterMap_cons_none _ _ rfl

lemma inflight_cons_stopped (ws : Multiset WStatus) :
    inflight (WStatus.stopped ::ₘ ws) = inflight ws :=
  Multiset.filterMap_cons_none _ _ rfl

lemma inflight_cons_inCall (i : Nat) (ws : Multiset WStatus) :
    inflight (WStatus.inCall i ::ₘ ws) = i ::ₘ inflight ws :=
  Multiset.filterMap_cons_some _ _ _ rfl

lemma inflight_eq_zero {ws : Multiset WStatus}
    (h : ∀ w ∈ ws, w = WStatus.stopped) : inflight ws = 0 := by
  induction ws using Multiset.induction_on with
  | empty => rfl
  | cons a s ih =>
    have ha : a = WStatus.stopped := h a (Multiset.mem_cons_self a s)
    subst ha
    rw [inflight_cons_stopped]
    exact ih fun w hw => h w (Multiset.mem_cons_of_mem hw)

lemma inv_step {T : Int} {s s' : PoolState} (hs : Inv T s)
    (h : WorkerStep T s s') : Inv T s' := by
  obtain ⟨h1, h2, h3⟩ := hs
  cases h with
  | claim c res ws hc =>
    simp only [Inv, inflight_cons_idle, inflight_cons_inCall] at *
    refine ⟨by omega, ?_, ?_⟩
    · rw [List.range_succ, ← Multiset.coe_add, ← h2]
      simp only [← Multiset.singleton_add, Multiset.coe_singleton]
      abel
    · intro hmem
      rcases Multiset.mem_cons.mp hmem with h' | h'
      · cases h'
      · have := h3 (Multiset.mem_cons_of_mem h')
        omega
  | exhaust c res ws hc =>
    simp only [Inv, inflight_cons_idle, inflight_cons_stopped] at *
    exact ⟨h1, h2, fun _ => by omega⟩
  | finish c res ws idx =>
    simp only [Inv, inflight_cons_idle, inflight_cons_inCall] at *
    refine ⟨h1, ?_, ?_⟩
    · rw [← Multiset.coe_add, ← h2]
      simp only [← Multiset.singleton_add, Multiset.coe_singleton]
      abel
    · intro hmem
      rcases Multiset.mem_cons.mp hmem with h' | h'
      · cases h'
      · exact h3 (Multiset.mem_cons_of_mem h')

lemma inv_reachable {T : Int} {s₀ s : PoolState} (h0 : Inv T s₀)
    (h : Reachable T s₀ s) : Inv T s := by
  induction h with
  | refl => exact h0
  | tail _ hstep ih => exact inv_step ih hstep

lemma inflight_replicate_idle (n : Nat) :
    inflight (Multiset.replicate n WStatus.idle) = 0 := by
  induction n with
  | zero => rfl
  | succ n ih => rw [Multiset.replicate_succ, inflight_cons_idle, ih]

lemma inv_init (c T : Int) : Inv T (initState c T) := by
  refine ⟨Nat.zero_le _, ?_, ?_⟩
  · simp [initState, inflight_replicate_idle]
  · intro hmem
    have := Multiset.eq_of_mem_replicate (by simpa [initState] using hmem)
    cases this

lemma step_card {T : Int} {s s' : PoolState} (h : WorkerStep T s s') :
    s'.workers.card = s.workers.card := by
  cases h <;> simp

lemma reachable_card {T : Int} {s₀ s : PoolState} (h : Reachable T s₀ s) :
    s.workers.card = s₀.workers.card := by
  induction h with
  | refl => rfl
  | tail _ hstep ih => rw [step_card hstep, ih]

/-- C1: for a run with totalCalls `T ≥ 1` and concurrency `c ≥ 1`, the spawn
loop creates exactly `min(c, T)` workers, the worker count is preserved, and
in every terminal state (all workers exited, i.e. `Promise.all` resolved) the
multiset of claimed indices pushed to `allResults` is exactly
`{0, ..., T − 1}` — each index once — so exactly `T` results were produced. -/
theorem worker_pool_exact_coverage (c T : Int) (hc : 1 ≤ c) (hT : 1 ≤ T)
    (s : PoolState) (hreach : Reachable T (initState c T) s) (hterm : Terminal s) :
    (initState c T).workers.card = (min c T).toNat ∧
    s.workers.card = (min c T).toNat ∧
    (s.results : Multiset Nat) = (List.range T.toNat : Multiset Nat) ∧
    s.results.length = T.toNat := by
  have hinv := inv_reachable (inv_init c T) hreach
  have hcard0 : (initState c T).workers.card = (min c T).toNat := by
    simp [initState, numWorkers]
  have hcard : s.workers.card = (min c T).toNat := by
    rw [reachable_card hreach, hcard0]
  have hpos : 0 < (min c T).toNat := by
    have := le_min hc hT
    omega
  obtain ⟨w, hw⟩ : ∃ w, w ∈ s.workers := by
    rw [← Multiset.card_pos_iff_exists_mem, hcard]
    exact hpos
  have hws := hterm w hw
  subst hws
  have hcomp : s.completed = T.toNat := hinv.2.2 hw
  have hres : (s.results : Multiset Nat) = (List.range T.toNat : Multiset Nat) := by
    have h2 := hinv.2.1
    rw [inflight_eq_zero hterm, add_zero, hcomp] at h2
    exact h2
  refine ⟨hcard0, hcard, hres, ?_⟩
  have hperm : s.results.Perm (List.range T.toNat) := Multiset.coe_eq_coe.mp hres
  simpa using hperm.length_eq

/-- C1 witness: `c = 1`, `T = 1` — the three-step schedule claim, finish,
exhaust ends in the terminal state `⟨1, [0], {stopped}⟩`, whose result list
is exactly the single index `0`. -/
theorem worker_pool_exact_coverage_witness :
    (((⟨1, [0], {WStatus.stopped}⟩ : PoolState).results : Multiset Nat) =
      (List.range (1 : Int).toNat : Multiset Nat)) ∧
    (⟨1, [0], {WStatus.stopped}⟩ : PoolState).results.length = (1 : Int).toNat := by
  have hinit : initState 1 1 = ⟨0, [], WStatus.idle ::ₘ 0⟩ := by decide
  have s1 : WorkerStep 1 ⟨0, [], WStatus.idle ::ₘ 0⟩ ⟨1, [], WStatus.inCall 0 ::ₘ 0⟩ :=
    WorkerStep.claim 0 [] 0 (by norm_num)
  have s2 : WorkerStep 1 ⟨1, [], WStatus.inCall 0 ::ₘ 0⟩ ⟨1, [0], WStatus.idle ::ₘ 0⟩ :=
    WorkerStep.finish 1 [] 0 0
  have s3 : WorkerStep 1 ⟨1, [0], WStatus.idle ::ₘ 0⟩ ⟨1, [0], WStatus.stopped ::ₘ 0⟩ :=
    WorkerStep.exhaust 1 [0] 0 (by norm_num)
  have hsing : (WStatus.stopped ::ₘ 0 : Multiset WStatus) = {WStatus.stopped} := rfl
  have hreach : Reachable 1 (initState 1 1) ⟨1, [0], {WStatus.stopped}⟩ := by
    rw [hinit, ← hsing]
    exact Relation.ReflTransGen.head s1 (Relation.ReflTransGen.head s2
      (Relation.ReflTransGen.head s3 Relation.ReflTransGen.refl))
  have hterm : Terminal ⟨1, [0], {WStatus.stopped}⟩ := by
    intro w hw
    simpa using Multiset.mem_singleton.mp hw
  have h := worker_pool_exact_coverage 1 1 (by norm_num) (by norm_num) _ hreach hterm
  exact ⟨h.2.2.1, h.2.2.2⟩

/-- C2: with `totalRequests = 0` the pool spawns `min(c, 0) = 0` workers and
issues no call: in every reachable state (terminal or not) `allResults` is
still empty, and the derived statistics of the empty collection are the
defined zero/empty values — average, fastest, slowest and rps are `0` (rps
for any wall duration, the count being `0`), and the percentile table and
histogram are both empty. -/
theorem zero_totalCalls_empty_run (c : Int) (s : PoolState)
    (hreach : Reachable 0 (initState c 0) s) :
    s.results = [] ∧
    (initState c 0).workers.card = 0 ∧
    averageLatency [] = 0 ∧
    fastestLatency [] = 0 ∧
    slowestLatency [] = 0 ∧
    (∀ t : ℚ, requestsPerSecond 0 t = 0) ∧
    buildLatencyDistribution [] = [] ∧
    buildHistogram [] = [] := by
  have hinv := inv_reachable (inv_init c 0) hreach
  have hcomp : s.completed = 0 := by
    have := hinv.1
    omega
  have hres : s.results = [] := by
    have h2 := hinv.2.1
    rw [hcomp] at h2
    simp only [List.range_zero, Multiset.coe_nil] at h2
    have : (s.results : Multiset Nat) = 0 := by
      have hle : (s.results : Multiset Nat) ≤ 0 := by
        rw [← h2]; exact Multiset.le_add_right _ _
      exact Multiset.le_zero.mp hle
    simpa using this
  refine ⟨hres, ?_, rfl, rfl, rfl, ?_, rfl, rfl⟩
  · simp [initState, numWorkers]
  · intro t
    unfold requestsPerSecond
    split <;> simp

/-- C2 witness: `c = 10`, the initial state itself (zero workers, reachable
by the empty schedule) already exhibits the empty run. -/
theorem zero_totalCalls_empty_run_witness :
    (initState 10 0).results = [] ∧
    (initState 10 0).workers.card = 0 ∧
    averageLatency [] = 0 ∧
    fastestLatency [] = 0 ∧
    slowestLatency [] = 0 ∧
    (∀ t : ℚ, requestsPerSecond 0 t = 0) ∧
    buildLatencyDistribution [] = [] ∧
    buildHistogram [] = [] :=
  zero_totalCalls_empty_run 10 (initState 10 0) Relation.ReflTransGen.refl

/-- C3 counterexample: a request body whose `config.c` is `−1` (so
concurrency < 1, which the claim says must be rejected with a configuration
error) passes the validation gate — `validationError` is `none` — and the
run proceeds, spawning `min(−1, 100).toNat = 0` workers instead of
returning an error. -/
theorem validation_ignores_bounds_cex :
    validationError ⟨"p", "Svc", "M", "addr", some ⟨some (-1), some 100, none⟩⟩ = none ∧
    effectiveConcurrency (some ⟨some (-1), some 100, none⟩) = -1 ∧
    ((-1 : Int) < 1) ∧
    numWorkers (effectiveConcurrency (some ⟨some (-1), some 100, none⟩))
      (effectiveTotalRequests (some ⟨some (-1), some 100, none⟩)) = 0 := by
  refine ⟨?_, rfl, by norm_num, rfl⟩
  simp [validationError]

/-- C3 amended: before any work starts the handler validates only the
presence (non-falsiness) of `protoContent`, `service`, `method` and
`address`, answering 400 with the list of missing fields; it performs no
numeric validation of `config.c`/`config.n` — validation passes or fails
identically whatever the config — so a non-positive concurrency or request
count is never surfaced as a configuration error. -/
theorem validation_presence_only (b : RequestBody) :
    (validationError b = none ↔
      b.protoContent ≠ "" ∧ b.service ≠ "" ∧ b.method ≠ "" ∧ b.address ≠ "") ∧
    (validationError b ≠ none →
      validationError b = some (missingFields b) ∧ missingFields b ≠ []) ∧
    (∀ cfg cfg' : Option StepConfig,
      validationError { b with config := cfg } = validationError { b with config := cfg' }) := by
  refine ⟨?_, ?_, ?_⟩
  · unfold validationError
    split <;> rename_i h
    · simp only [ne_eq]
      constructor
      · intro hc; cases hc
      · intro hc; tauto
    · push_neg at h
      simp only [ne_eq]
      tauto
  · intro hne
    unfold validationError at hne ⊢
    split at hne <;> rename_i h
    · rw [if_pos h]
      refine ⟨rfl, ?_⟩
      unfold missingFields
      rcases h with h | h | h | h <;> simp [h]
    · exact absurd rfl hne
  · intro cfg cfg'
    unfold validationError missingFields
    rfl

/-- C3 amended witness: the body `⟨"p", "Svc", "M", "addr", none⟩` passes
validation, while blanking `address` fails it with the field named. -/
theorem validation_presence_only_witness :
    (validationError ⟨"p", "Svc", "M", "addr", none⟩ = none ↔
      ("p" ≠ "" ∧ "Svc" ≠ "" ∧ "M" ≠ "" ∧ "addr" ≠ "")) ∧
    (validationError ⟨"p", "Svc", "M", "", none⟩ = none ↔
      ("p" ≠ "" ∧ "Svc" ≠ "" ∧ "M" ≠ "" ∧ "" ≠ "")) := by
  constructor
  · exact (validation_presence_only ⟨"p", "Svc", "M", "addr", none⟩).1
  · exact (validation_presence_only ⟨"p", "Svc", "M", "", none⟩).1

/-- C10: JavaScript-falsy `config.c` (absent config, absent field, or the
explicit value `0`) is replaced by `10`; falsy `config.n` by `100`; absent
`config.data` by the empty object — and a well-formed body carrying an
explicit `c = 0, n = 0` config still passes validation, the zeros being
silently rewritten to the defaults rather than rejected or run empty. -/
theorem config_falsy_defaults :
    effectiveConcurrency none = 10 ∧
    (∀ (n : Option Int) (d : Option String), effectiveConcurrency (some ⟨none, n, d⟩) = 10) ∧
    (∀ (n : Option Int) (d : Option String), effectiveConcurrency (some ⟨some 0, n, d⟩) = 10) ∧
    effectiveTotalRequests none = 100 ∧
    (∀ (c : Option Int) (d : Option String), effectiveTotalRequests (some ⟨c, none, d⟩) = 100) ∧
    (∀ (c : Option Int) (d : Option String), effectiveTotalRequests (some ⟨c, some 0, d⟩) = 100) ∧
    effectiveRequestData none = "\x7b\x7d" ∧
    (∀ (c n : Option Int), effectiveRequestData (some ⟨c, n, none⟩) = "\x7b\x7d") ∧
    validationError ⟨"p", "Svc", "M", "addr", some ⟨some 0, some 0, none⟩⟩ = none ∧
    effectiveConcurrency (some ⟨some 0, some 0, none⟩) = 10 ∧
    effectiveTotalRequests (some ⟨some 0, some 0, none⟩) = 100 := by
  refine ⟨rfl, fun _ _ => rfl, fun _ _ => rfl, rfl, fun _ _ => rfl, fun _ _ => rfl,
    rfl, fun _ _ => rfl, ?_, rfl, rfl⟩
  simp [validationError]

lemma bumpAt_length (i : Nat) (bs : List (ℚ × Nat)) :
    (bumpAt i bs).length = bs.length := by
  induction bs generalizing i with
  | nil => cases i <;> rfl
  | cons b bs ih =>
    cases i with
    | zero => rfl
    | succ i => simp [bumpAt, ih]

lemma getElem?_bumpAt (i j : Nat) (bs : List (ℚ × Nat)) :
    (bumpAt i bs)[j]? =
      if i = j then bs[j]?.map (fun b => (b.1, b.2 + 1)) else bs[j]? := by
  induction bs generalizing i j with
  | nil => simp [bumpAt]
  | cons b bs ih =>
    cases i with
    | zero =>
      cases j with
      | zero => simp [bumpAt]
      | succ j => simp [bumpAt]
    | succ i =>
      cases j with
      | zero => simp [bumpAt]
      | succ j => simpa [bumpAt] using ih i j

lemma bumpAt_sum {i : Nat} {bs : List (ℚ × Nat)} (h : i < bs.length) :
    ((bumpAt i bs).map Prod.snd).sum = ((bs.map Prod.snd).sum) + 1 := by
  induction bs generalizing i with
  | nil => simp at h
  | cons b bs ih =>
    cases i with
    | zero =>
      simp only [bumpAt, List.map_cons, List.sum_cons]
      omega
    | succ i =>
      simp only [bumpAt, List.map_cons, List.sum_cons]
      rw [ih (by simpa using h)]
      omega

lemma foldl_bump_getElem? (f : ℚ → Nat) (l : List ℚ) (init : List (ℚ × Nat)) (j : Nat) :
    (l.foldl (fun bs lat => bumpAt (f lat) bs) init)[j]? =
      init[j]?.map (fun b => (b.1, b.2 + l.countP (fun x => f x = j))) := by
  induction l generalizing init with
  | nil =>
    cases hj : init[j]? <;> simp [hj]
  | cons a l ih =>
    rw [List.foldl_cons, ih, getElem?_bumpAt]
    by_cases h : f a = j
    · rw [if_pos h]
      cases hj : init[j]? with
      | none => simp
      | some b =>
        simp only [Option.map_some, List.countP_cons]
        refine congrArg some (Prod.ext rfl ?_)
        simp [h]
        omega
    · rw [if_neg h]
      cases hj : init[j]? with
      | none => simp
      | some b =>
        simp only [Option.map_some, List.countP_cons]
        refine congrArg some (Prod.ext rfl ?_)
        simp [h]

lemma foldl_bump_sum (f : ℚ → Nat) (l : List ℚ) (init : List (ℚ × Nat))
    (h : ∀ x ∈ l, f x < init.length) :
    ((l.foldl (fun bs lat => bumpAt (f lat) bs) init).map Prod.snd).sum =
      ((init.map Prod.snd).sum) + l.length := by
  induction l generalizing init with
  | nil => simp
  | cons a l ih =>
    rw [List.foldl_cons, ih _ (fun x hx => by
      rw [bumpAt_length]; exact h x (List.mem_cons_of_mem a hx))]
    rw [bumpAt_sum (h a (List.mem_cons_self a l))]
    simp only [List.length_cons]
    omega

lemma bucketIdx_lt (mn bucketSize : ℚ) {bucketCount : Nat} (hb : 0 < bucketCount)
    (lat : ℚ) : bucketIdx mn bucketSize bucketCount lat < bucketCount := by
  simp only [bucketIdx]
  split <;> rename_i hj
  · omega
  · push_neg at hj
    omega

lemma bucketIdx_max {mn mx : ℚ} {bucketCount : Nat} (hb : 0 < bucketCount)
    (hlt : mn < mx) :
    bucketIdx mn ((mx - mn) / (bucketCount : ℚ)) bucketCount mx = bucketCount - 1 := by
  unfold bucketIdx
  have hne : mx - mn ≠ 0 := by intro h; apply absurd hlt; rw [sub_eq_zero] at h; simp [h]
  have hbc : ((bucketCount : ℚ)) ≠ 0 := by positivity
  have harg : (mx - mn) / ((mx - mn) / (bucketCount : ℚ)) = (bucketCount : ℚ) := by
    field_simp
  rw [harg, Int.floor_natCast]
  simp

lemma sorted_le_getLast? {l : List ℚ} (hs : l.Sorted (· ≤ ·)) (hne : l ≠ []) :
    ∃ m, l.getLast? = some m ∧ m ∈ l ∧ ∀ x ∈ l, x ≤ m := by
  induction l with
  | nil => cases hne rfl
  | cons a t ih =>
    rw [List.sorted_cons] at hs
    cases t with
    | nil =>
      refine ⟨a, rfl, List.mem_singleton_self a, ?_⟩
      intro x hx
      rw [List.mem_singleton] at hx
      exact le_of_eq hx
    | cons b t' =>
      obtain ⟨m, hm, hmem, hub⟩ := ih hs.2 (by simp)
      refine ⟨m, by rw [List.getLast?_cons_cons]; exact hm,
        List.mem_cons_of_mem a hmem, ?_⟩
      intro x hx
      rcases List.mem_cons.mp hx with h | h
      · subst h
        exact le_trans (hs.1 b (List.mem_cons_self b t'))
          (hub b (List.mem_cons_self b t'))
      · exact hub x h

/-- The head of the ascending sort of a non-empty list is its minimum
(member and lower bound). -/
lemma sortedMin_spec (l : List ℚ) (hne : l ≠ []) :
    (l.insertionSort (· ≤ ·)).headI ∈ l ∧
    ∀ x ∈ l, (l.insertionSort (· ≤ ·)).headI ≤ x := by
  have hperm := List.perm_insertionSort (· ≤ ·) l
  have hsort := List.sorted_insertionSort (· ≤ ·) l
  cases hsl : l.insertionSort (· ≤ ·) with
  | nil =>
    rw [hsl] at hperm
    exact absurd (hperm.symm.eq_nil) hne
  | cons a t =>
    rw [hsl] at hperm hsort
    rw [List.sorted_cons] at hsort
    constructor
    · exact hperm.mem_iff.mp (List.mem_cons_self a t)
    · intro x hx
      rcases List.mem_cons.mp (hperm.mem_iff.mpr hx) with h | h
      · simp [h]
      · simpa using hsort.1 x h

/-- The last element of the ascending sort of a non-empty list is its maximum
(member and upper bound). -/
lemma sortedMax_spec (l : List ℚ) (hne : l ≠ []) :
    (l.insertionSort (· ≤ ·)).getLastD 0 ∈ l ∧
    ∀ x ∈ l, x ≤ (l.insertionSort (· ≤ ·)).getLastD 0 := by
  have hperm := List.perm_insertionSort (· ≤ ·) l
  have hsort := List.sorted_insertionSort (· ≤ ·) l
  have hne' : l.insertionSort (· ≤ ·) ≠ [] := by
    intro h
    rw [h] at hperm
    exact hne hperm.symm.eq_nil
  obtain ⟨m, hm, hmem, hub⟩ := sorted_le_getLast? hsort hne'
  have hD : (l.insertionSort (· ≤ ·)).getLastD 0 = m := by
    rw [List.getLastD_eq_getLast?, hm]
    rfl
  rw [hD]
  exact ⟨hperm.mem_iff.mp hmem, fun x hx => hub x (hperm.mem_iff.mpr hx)⟩

lemma foldl_bump_length (f : ℚ → Nat) (l : List ℚ) (init : List (ℚ × Nat)) :
    (l.foldl (fun bs lat => bumpAt (f lat) bs) init).length = init.length := by
  induction l generalizing init with
  | nil => rfl
  | cons a l ih => rw [List.foldl_cons, ih, bumpAt_length]

lemma isEmpty_false_of_ne_nil {l : List ℚ} (hne : l ≠ []) : l.isEmpty = false := by
  cases l with
  | nil => cases hne rfl
  | cons a t => rfl

lemma buildHistogram_of_eq (l : List ℚ) (hne : l ≠ [])
    (hmm : sortedMin l = sortedMax l) :
    buildHistogram l 10 = [⟨sortedMin l / 1e9, l.length, 1⟩] := by
  simp only [sortedMin, sortedMax] at hmm ⊢
  simp only [buildHistogram, isEmpty_false_of_ne_nil hne, Bool.false_eq_true,
    if_false, if_pos hmm]

lemma buildHistogram_length_of_ne (l : List ℚ) (hne : l ≠ [])
    (hmm : sortedMin l ≠ sortedMax l) :
    (buildHistogram l 10).length = 10 := by
  simp only [sortedMin, sortedMax] at hmm
  simp only [buildHistogram, isEmpty_false_of_ne_nil hne, Bool.false_eq_true,
    if_false, if_neg hmm]
  rw [List.length_map, foldl_bump_length, List.length_map, List.length_range]

lemma buildHistogram_of_ne (l : List ℚ) (hne : l ≠ [])
    (hmm : sortedMin l ≠ sortedMax l) {i : Nat} (hi : i < 10) :
    (buildHistogram l 10)[i]? =
      some ⟨(sortedMin l + (sortedMax l - sortedMin l) / 10 * ((i : ℚ) + 1)) / 1e9,
            l.countP (fun x =>
              bucketIdx (sortedMin l) ((sortedMax l - sortedMin l) / 10) 10 x = i),
            (l.countP (fun x =>
              bucketIdx (sortedMin l) ((sortedMax l - sortedMin l) / 10) 10 x = i) : ℚ) /
              (l.length : ℚ)⟩ := by
  simp only [sortedMin, sortedMax] at hmm ⊢
  simp only [buildHistogram, isEmpty_false_of_ne_nil hne, Bool.false_eq_true,
    if_false, if_neg hmm]
  rw [List.getElem?_map, foldl_bump_getElem?, List.getElem?_map,
    List.getElem?_range hi]
  simp

/-- C8: the bucket counts of the histogram always sum to the size of the
latency collection, and each sample determines exactly one bucket index
below 10 (so every sample lands in exactly one bucket). -/
theorem histogram_counts_partition (l : List ℚ) :
    ((buildHistogram l 10).map Bucket.count).sum = l.length ∧
    (∀ mn w lat : ℚ, ∃! i : Nat, i < 10 ∧ bucketIdx mn w 10 lat = i) := by
  constructor
  · by_cases hne : l = []
    · subst hne; rfl
    · by_cases hmm : sortedMin l = sortedMax l
      · rw [buildHistogram_of_eq l hne hmm]
        simp
      · simp only [sortedMin, sortedMax] at hmm
        simp only [buildHistogram, isEmpty_false_of_ne_nil hne, Bool.false_eq_true,
          if_false, if_neg hmm]
        rw [List.map_map]
        have hcomp : (Bucket.count ∘ fun (b : ℚ × ℕ) =>
            Bucket.mk b.1 b.2 ((b.2 : ℚ) / (l.length : ℚ))) = Prod.snd := rfl
        rw [hcomp, foldl_bump_sum]
        · rw [List.map_map]
          have hz : (List.map
              (Prod.snd ∘ fun (i : ℕ) =>
                (((l.insertionSort (· ≤ ·)).headI +
                   ((l.insertionSort (· ≤ ·)).getLastD 0 -
                    (l.insertionSort (· ≤ ·)).headI) / (10 : ℚ) * ((i : ℚ) + 1)) / 1e9,
                 (0 : ℕ)))
              (List.range 10)).sum = 0 := by
            apply List.sum_eq_zero
            intro x hx
            rw [List.mem_map] at hx
            obtain ⟨i, -, rfl⟩ := hx
            rfl
          simpa using hz
        · intro x hx
          rw [List.length_map, List.length_range]
          exact bucketIdx_lt _ _ (by norm_num) x
  · intro mn w lat
    exact ⟨bucketIdx mn w 10 lat, ⟨bucketIdx_lt mn w (by norm_num) lat, rfl⟩,
      fun i hi => hi.2.symm⟩

/-- C4 counterexample: for latencies `[0, 10]` (min 0, max 10, width 1) the
claim asserts bucket 0's upper bound is `min + width·1 = 1` nanosecond, but
the code stores `(min + width·1) / 1e9` — the bound converted to seconds —
so the recorded mark is `1/1e9`, not `1`. -/
theorem histogram_mark_seconds_cex :
    (∃ b, (buildHistogram [0, 10] 10)[0]? = some b ∧
      b.mark = ((1 : ℚ) / 1e9) ∧ b.mark ≠ (0 : ℚ) + (10 - 0) / 10 * (0 + 1)) := by
  have hne : ([0, 10] : List ℚ) ≠ [] := by simp
  have hmn : sortedMin [0, 10] = 0 := by decide
  have hmx : sortedMax [0, 10] = 10 := by decide
  have hmm : sortedMin [0, 10] ≠ sortedMax [0, 10] := by
    rw [hmn, hmx]; norm_num
  have h := buildHistogram_of_ne [0, 10] hne hmm (by norm_num : (0 : ℕ) < 10)
  refine ⟨_, h, ?_, ?_⟩
  · rw [hmn, hmx]
    norm_num
  · rw [hmn, hmx]
    norm_num

/-- C4 (amended): for every non-empty latency collection the histogram uses
10 buckets.  `sorted[0]`/`sorted[last]` are the min/max of the collection;
if min = max there is a single bucket holding all samples with frequency 1
(mark `min / 1e9`); otherwise, with `width = (max − min)/10`, bucket `i`'s
stored upper bound is `(min + width·(i+1)) / 1e9` — the nanosecond bound
divided by 1e9, i.e. in seconds, not nanoseconds as claimed — each sample is
placed at index `⌊(latency − min)/width⌋` clamped to the last bucket, the
maximum landing at index 9, and each bucket's frequency is its count divided
by the total count. -/
theorem histogram_structure (l : List ℚ) (hne : l ≠ []) :
    (sortedMin l ∈ l ∧ ∀ x ∈ l, sortedMin l ≤ x) ∧
    (sortedMax l ∈ l ∧ ∀ x ∈ l, x ≤ sortedMax l) ∧
    (sortedMin l = sortedMax l →
      buildHistogram l 10 = [⟨sortedMin l / 1e9, l.length, 1⟩]) ∧
    (sortedMin l ≠ sortedMax l →
      (buildHistogram l 10).length = 10 ∧
      (∀ i : Nat, i < 10 →
        (buildHistogram l 10)[i]? =
          some ⟨(sortedMin l + (sortedMax l - sortedMin l) / 10 * ((i : ℚ) + 1)) / 1e9,
                l.countP (fun x =>
                  bucketIdx (sortedMin l) ((sortedMax l - sortedMin l) / 10) 10 x = i),
                (l.countP (fun x =>
                  bucketIdx (sortedMin l) ((sortedMax l - sortedMin l) / 10) 10 x = i) : ℚ) /
                  (l.length : ℚ)⟩) ∧
      bucketIdx (sortedMin l) ((sortedMax l - sortedMin l) / 10) 10 (sortedMax l) = 9) := by
  refine ⟨sortedMin_spec l hne, sortedMax_spec l hne,
    buildHistogram_of_eq l hne, fun hmm => ?_⟩
  refine ⟨buildHistogram_length_of_ne l hne hmm,
    fun i hi => buildHistogram_of_ne l hne hmm hi, ?_⟩
  have hle : sortedMin l ≤ sortedMax l :=
    (sortedMin_spec l hne).2 _ (sortedMax_spec l hne).1
  have hlt : sortedMin l < sortedMax l := lt_of_le_of_ne hle hmm
  exact bucketIdx_max (by norm_num) hlt

/-- C4 witness: for latencies `[0, 10]` the histogram has 10 buckets, the
maximum 10 lands in the final bucket (index 9), and bucket 9 holds one
sample at frequency 1/2 with mark `10/1e9`. -/
theorem histogram_structure_witness :
    (([0, 10] : List ℚ) ≠ []) ∧
    (buildHistogram [0, 10] 10).length = 10 ∧
    bucketIdx (sortedMin [0, 10]) ((sortedMax [0, 10] - sortedMin [0, 10]) / 10) 10
      (sortedMax [0, 10]) = 9 := by
  have hne : ([0, 10] : List ℚ) ≠ [] := by simp
  have hmm : sortedMin [0, 10] ≠ sortedMax [0, 10] := by
    have hmn : sortedMin [0, 10] = 0 := by decide
    have hmx : sortedMax [0, 10] = 10 := by decide
    rw [hmn, hmx]; norm_num
  have h := (histogram_structure [0, 10] hne).2.2.2 hmm
  exact ⟨hne, h.1, h.2.2⟩

lemma buildLatencyDistribution_of_ne (l : List ℚ) (hne : l ≠ []) :
    buildLatencyDistribution l = percentileMarks.map (fun (p : Nat) =>
      ⟨p, (l.insertionSort (· ≤ ·)).getD
        (max 0 (⌈((p : ℚ) / 100) * (l.length : ℚ)⌉ - 1)).toNat 0⟩) := by
  simp only [buildLatencyDistribution, isEmpty_false_of_ne_nil hne,
    Bool.false_eq_true, if_false, List.length_insertionSort]

lemma range100_sorted :
    ((List.range 100).map (fun (i : ℕ) => ((i : ℚ) + 1))).Sorted (· ≤ ·) := by
  rw [List.Sorted, List.pairwise_map]
  refine (List.sorted_lt_range 100).imp ?_
  intro a b hab
  have : (a : ℚ) < (b : ℚ) := by exact_mod_cast hab
  linarith

/-- C5: for any ascending sort `s` of a non-empty collection `l`, the
percentile table is, in order over the marks 10, 25, 50, 75, 90, 95, 99,
the pair `(p, s[max(0, ceil(p/100·n) − 1)])` with no interpolation; an empty
collection yields an empty table; and for the latencies `1, 2, ..., 100` the
50th-percentile row (index 2 of the table) is `(50, 50)`. -/
theorem percentile_table_spec (l s : List ℚ) (hperm : s.Perm l)
    (hsort : s.Sorted (· ≤ ·)) (hne : l ≠ []) :
    buildLatencyDistribution [] = [] ∧
    (buildLatencyDistribution l).map PercentileEntry.percentage = percentileMarks ∧
    buildLatencyDistribution l = percentileMarks.map (fun (p : Nat) =>
      ⟨p, s.getD (max 0 (⌈((p : ℚ) / 100) * (l.length : ℚ)⌉ - 1)).toNat 0⟩) ∧
    (buildLatencyDistribution ((List.range 100).map (fun (i : ℕ) => ((i : ℚ) + 1))))[2]? =
      some ⟨50, 50⟩ := by
  have hs : l.insertionSort (· ≤ ·) = s :=
    List.eq_of_perm_of_sorted ((List.perm_insertionSort _ l).trans hperm.symm)
      (List.sorted_insertionSort _ l) hsort
  refine ⟨rfl, ?_, ?_, ?_⟩
  · rw [buildLatencyDistribution_of_ne l hne, List.map_map]
    rfl
  · rw [buildLatencyDistribution_of_ne l hne, hs]
  · have hne' : ((List.range 100).map (fun (i : ℕ) => ((i : ℚ) + 1))) ≠ [] := by
      simp
    rw [buildLatencyDistribution_of_ne _ hne', range100_sorted.insertionSort_eq]
    rw [List.getElem?_map]
    have hm : percentileMarks[2]? = some 50 := rfl
    rw [hm, Option.map_some']
    refine congrArg some ?_
    have hlen : ((List.range 100).map (fun (i : ℕ) => ((i : ℚ) + 1))).length = 100 := by
      simp
    rw [hlen]
    have harg : (((50 : ℕ) : ℚ) / 100) * ((100 : ℕ) : ℚ) = ((50 : ℤ) : ℚ) := by
      push_cast
      norm_num
    rw [harg, Int.ceil_intCast]
    have hidx : (max (0 : ℤ) (50 - 1)).toNat = 49 := rfl
    rw [hidx]
    rw [List.getD_eq_getElem?_getD, List.getElem?_map, List.getElem?_range (by norm_num)]
    norm_num

/-- C5 witness: the singleton collection `[5]` with its (trivially sorted)
permutation `[5]`: every percentile row reports latency 5, e.g. the table
equals the mapped index formula over `[5]`. -/
theorem percentile_table_spec_witness :
    buildLatencyDistribution [(5 : ℚ)] = percentileMarks.map (fun (p : Nat) =>
      ⟨p, ([(5 : ℚ)]).getD (max 0 (⌈((p : ℚ) / 100) * ((1 : ℕ) : ℚ)⌉ - 1)).toNat 0⟩) := by
  have h := percentile_table_spec [(5 : ℚ)] [(5 : ℚ)] (List.Perm.refl _)
    (List.sorted_singleton 5) (by simp)
  exact h.2.2.1

lemma foldl_min_spec (x : ℚ) (xs : List ℚ) :
    xs.foldl min x ∈ x :: xs ∧ ∀ y ∈ x :: xs, xs.foldl min x ≤ y := by
  induction xs generalizing x with
  | nil => simp
  | cons a t ih =>
    rw [List.foldl_cons]
    obtain ⟨hmem, hle⟩ := ih (min x a)
    constructor
    · rcases List.mem_cons.mp hmem with h | h
      · rcases min_choice x a with hc | hc
        · rw [h, hc]; exact List.mem_cons_self _ _
        · rw [h, hc]; exact List.mem_cons_of_mem _ (List.mem_cons_self _ _)
      · exact List.mem_cons_of_mem _ (List.mem_cons_of_mem _ h)
    · intro y hy
      rcases List.mem_cons.mp hy with h | h
      · rw [h]
        exact le_trans (hle _ (List.mem_cons_self _ _)) (min_le_left x a)
      · rcases List.mem_cons.mp h with h' | h'
        · rw [h']
          exact le_trans (hle _ (List.mem_cons_self _ _)) (min_le_right x a)
        · exact hle y (List.mem_cons_of_mem _ h')

lemma foldl_max_spec (x : ℚ) (xs : List ℚ) :
    xs.foldl max x ∈ x :: xs ∧ ∀ y ∈ x :: xs, y ≤ xs.foldl max x := by
  induction xs generalizing x with
  | nil => simp
  | cons a t ih =>
    rw [List.foldl_cons]
    obtain ⟨hmem, hle⟩ := ih (max x a)
    constructor
    · rcases List.mem_cons.mp hmem with h | h
      · rcases max_choice x a with hc | hc
        · rw [h, hc]; exact List.mem_cons_self _ _
        · rw [h, hc]; exact List.mem_cons_of_mem _ (List.mem_cons_self _ _)
      · exact List.mem_cons_of_mem _ (List.mem_cons_of_mem _ h)
    · intro y hy
      rcases List.mem_cons.mp hy with h | h
      · rw [h]
        exact le_trans (le_max_left x a) (hle _ (List.mem_cons_self _ _))
      · rcases List.mem_cons.mp h with h' | h'
        · rw [h']
          exact le_trans (le_max_right x a) (hle _ (List.mem_cons_self _ _))
        · exact hle y (List.mem_cons_of_mem _ h')

lemma fastestLatency_spec (l : List ℚ) (hne : l ≠ []) :
    fastestLatency l ∈ l ∧ ∀ x ∈ l, fastestLatency l ≤ x := by
  cases l with
  | nil => cases hne rfl
  | cons x xs => exact foldl_min_spec x xs

lemma slowestLatency_spec (l : List ℚ) (hne : l ≠ []) :
    slowestLatency l ∈ l ∧ ∀ x ∈ l, x ≤ slowestLatency l := by
  cases l with
  | nil => cases hne rfl
  | cons x xs => exact foldl_max_spec x xs

/-- C6: for a non-empty result collection the average is the latency sum
divided by the count, fastest/slowest are the minimum/maximum latency
(member and bound), and each of these is 0 for the empty collection; the
throughput is `count / (totalWallNanos / 1e9)` whenever the measured wall
time is positive and 0 when it is 0. -/
theorem aggregate_stats_spec (l : List ℚ) (hne : l ≠ []) :
    averageLatency l = l.sum / (l.length : ℚ) ∧
    averageLatency [] = 0 ∧
    (fastestLatency l ∈ l ∧ ∀ x ∈ l, fastestLatency l ≤ x) ∧
    fastestLatency [] = 0 ∧
    (slowestLatency l ∈ l ∧ ∀ x ∈ l, x ≤ slowestLatency l) ∧
    slowestLatency [] = 0 ∧
    (∀ (count : Nat) (t : ℚ), 0 < t →
      requestsPerSecond count t = (count : ℚ) / (t / 1e9)) ∧
    (∀ count : Nat, requestsPerSecond count 0 = 0) := by
  refine ⟨?_, rfl, fastestLatency_spec l hne, rfl, slowestLatency_spec l hne, rfl,
    ?_, ?_⟩
  · rw [averageLatency, if_pos (List.length_pos.mpr hne)]
  · intro count t ht
    rw [requestsPerSecond, if_pos ht]
  · intro count
    rw [requestsPerSecond, if_neg (lt_irrefl 0)]

/-- C6 witness: the collection `[2, 1]` — average 3/2, fastest 1, slowest 2,
and rps at count 2 over 2 ns of wall time. -/
theorem aggregate_stats_spec_witness :
    ([(2 : ℚ), 1] ≠ []) ∧
    averageLatency [(2 : ℚ), 1] = 3 / 2 ∧
    (fastestLatency [(2 : ℚ), 1] ∈ [(2 : ℚ), 1] ∧
      ∀ x ∈ [(2 : ℚ), 1], fastestLatency [(2 : ℚ), 1] ≤ x) ∧
    (slowestLatency [(2 : ℚ), 1] ∈ [(2 : ℚ), 1] ∧
      ∀ x ∈ [(2 : ℚ), 1], x ≤ slowestLatency [(2 : ℚ), 1]) ∧
    requestsPerSecond 2 2 = (2 : ℚ) / (2 / 1e9) := by
  have hne : [(2 : ℚ), 1] ≠ [] := by simp
  have h := aggregate_stats_spec [(2 : ℚ), 1] hne
  refine ⟨hne, ?_, h.2.2.1, h.2.2.2.2.1, h.2.2.2.2.2.2.1 2 2 (by norm_num)⟩
  rw [h.1]
  norm_num

/-- C7 counterexample: a client exposing only the member `a`; the request
method `b` matches nothing, the `|| method` fallback keeps the raw name,
`client[methodName]` is `undefined`, and the executor's synchronous call
throws — the promise rejects (`Except.error`) instead of resolving to a
`CallResult`, and that rejection propagates through `await`/`Promise.all`
into the handler's 500 catch-all, refuting "no exception propagates out of
the invocation". -/
theorem call_invoker_throw_cex :
    resolveMethodName ["a"] "b" = "b" ∧
    makeUnaryCall (fun _ => none)
      (fun m => if m = "a" then some none else none) "b" 5 =
      Except.error "TypeError: client[methodName] is not a function" ∧
    ∀ r : CallResult,
      makeUnaryCall (fun _ => none)
        (fun m => if m = "a" then some none else none) "b" 5 ≠ Except.ok r := by
  refine ⟨?_, rfl, ?_⟩
  · have hlo : ("a".toLower == "b".toLower) = false := by
      rw [String.toLower, String.toLower, String.map_eq, String.map_eq]
      decide
    simp [resolveMethodName, jsOr, List.find?, hlo]
  · intro r h
    cases h

/-- C7 (amended): when the resolved method name is an actual member of the
client, the invocation never throws — every callback outcome resolves to a
`CallResult` carrying the measured latency: success is classified "OK" with
no message; a failure is classified by the transport-provided status name
when the `grpc.status` table has a non-empty entry for the code, as
`UNKNOWN(<code>)` when it has none, and as `UNKNOWN(undefined)` when the
error carries no code, the message falling back from the transport error
text to the stringified code to "Unknown error".  When the name matches no
client member, however, the synchronous call `client[methodName](...)`
throws and the promise rejects — an exception does escape the invocation
and aborts the run. -/
theorem call_invoker_classification (statusLookup : Int → Option String)
    (client : String → Option (Option GrpcServiceError)) (methodName : String)
    (lat : ℚ) :
    (∀ cb, client methodName = some cb →
      ∃ r : CallResult, makeUnaryCall statusLookup client methodName lat =
        Except.ok r ∧ r.latency = lat) ∧
    (client methodName = none →
      makeUnaryCall statusLookup client methodName lat =
        Except.error "TypeError: client[methodName] is not a function") ∧
    (client methodName = some none →
      makeUnaryCall statusLookup client methodName lat =
        Except.ok ⟨lat, none, "OK"⟩) ∧
    (∀ c msg, msg ≠ "" → client methodName = some (some ⟨c, msg⟩) →
      (makeUnaryCall statusLookup client methodName lat).map CallResult.error =
        Except.ok (some msg)) ∧
    (∀ c, client methodName = some (some ⟨some c, ""⟩) →
      (makeUnaryCall statusLookup client methodName lat).map CallResult.error =
        Except.ok (some (jsOr (toString c) "Unknown error"))) ∧
    (client methodName = some (some ⟨none, ""⟩) →
      (makeUnaryCall statusLookup client methodName lat).map CallResult.error =
        Except.ok (some "Unknown error")) ∧
    (∀ c msg name, statusLookup c = some name → name ≠ "" →
      client methodName = some (some ⟨some c, msg⟩) →
      (makeUnaryCall statusLookup client methodName lat).map CallResult.statusCode =
        Except.ok name) ∧
    (∀ c msg, statusLookup c = none →
      client methodName = some (some ⟨some c, msg⟩) →
      (makeUnaryCall statusLookup client methodName lat).map CallResult.statusCode =
        Except.ok ("UNKNOWN(" ++ toString c ++ ")")) ∧
    (∀ msg, client methodName = some (some ⟨none, msg⟩) →
      (makeUnaryCall statusLookup client methodName lat).map CallResult.statusCode =
        Except.ok "UNKNOWN(undefined)") := by
  refine ⟨?_, ?_, ?_, ?_, ?_, ?_, ?_, ?_, ?_⟩
  · intro cb hcb
    simp only [makeUnaryCall, hcb]
    cases cb with
    | none => exact ⟨⟨lat, none, "OK"⟩, rfl, rfl⟩
    | some e => exact ⟨_, rfl, rfl⟩
  · intro hcb
    simp [makeUnaryCall, hcb]
  · intro hcb
    simp [makeUnaryCall, hcb]
  · intro c msg hmsg hcb
    simp [makeUnaryCall, hcb, jsOr, hmsg, Except.map]
  · intro c hcb
    simp [makeUnaryCall, hcb, jsOr, Except.map]
  · intro hcb
    simp [makeUnaryCall, hcb, jsOr, Except.map]
  · intro c msg name hname hne hcb
    simp [makeUnaryCall, hcb, hname, jsOr, hne, Except.map]
  · intro c msg hnone hcb
    simp [makeUnaryCall, hcb, hnone, jsOr, Except.map]
  · intro msg hcb
    simp [makeUnaryCall, hcb, Except.map]

/-- C7 witness: a client whose member `sayHello` fails with code 14 and
message "connection refused" under a lookup table mapping 14 to
"UNAVAILABLE": the invocation resolves (no throw) to a `CallResult`
classified "UNAVAILABLE" with that message; with a succeeding member the
result is "OK"; with an unmatched name the promise rejects. -/
theorem call_invoker_classification_witness :
    (makeUnaryCall (fun c => if c = 14 then some "UNAVAILABLE" else none)
        (fun m => if m = "sayHello" then some (some ⟨some 14, "connection refused"⟩)
          else none) "sayHello" 5).map CallResult.statusCode =
      Except.ok "UNAVAILABLE" ∧
    (makeUnaryCall (fun c => if c = 14 then some "UNAVAILABLE" else none)
        (fun m => if m = "sayHello" then some (some ⟨some 14, "connection refused"⟩)
          else none) "sayHello" 5).map CallResult.error =
      Except.ok (some "connection refused") ∧
    makeUnaryCall (fun c => if c = 14 then some "UNAVAILABLE" else none)
      (fun _ => some none) "sayHello" 5 = Except.ok ⟨5, none, "OK"⟩ ∧
    makeUnaryCall (fun c => if c = 14 then some "UNAVAILABLE" else none)
      (fun _ => none) "sayHello" 5 =
      Except.error "TypeError: client[methodName] is not a function" := by
  have h := call_invoker_classification
    (fun c => if c = 14 then some "UNAVAILABLE" else none)
    (fun m => if m = "sayHello" then some (some ⟨some 14, "connection refused"⟩)
      else none) "sayHello" 5
  have hok := call_invoker_classification
    (fun c => if c = 14 then some "UNAVAILABLE" else none)
    (fun _ : String => some (none : Option GrpcServiceError)) "sayHello" 5
  have hthrow := call_invoker_classification
    (fun c => if c = 14 then some "UNAVAILABLE" else none)
    (fun _ : String => (none : Option (Option GrpcServiceError))) "sayHello" 5
  refine ⟨h.2.2.2.2.2.2.1 14 "connection refused" "UNAVAILABLE" (by norm_num)
      (by decide) (by decide),
    h.2.2.2.1 (some 14) "connection refused" (by decide) (by decide),
    hok.2.2.1 rfl, hthrow.2.1 rfl⟩

lemma insertionSort_perm_eq {l l' : List ℚ} (h : l.Perm l') :
    l.insertionSort (· ≤ ·) = l'.insertionSort (· ≤ ·) :=
  List.eq_of_perm_of_sorted
    ((List.perm_insertionSort _ l).trans
      (h.trans (List.perm_insertionSort _ l').symm))
    (List.sorted_insertionSort _ l) (List.sorted_insertionSort _ l')

lemma buildHistogram_perm {l l' : List ℚ} (h : l.Perm l') :
    buildHistogram l 10 = buildHistogram l' 10 := by
  by_cases hne : l = []
  · subst hne
    rw [h.symm.eq_nil]
  · have hne' : l' ≠ [] := by
      intro hl
      exact hne ((hl ▸ h).eq_nil)
    have hs := insertionSort_perm_eq h
    have hmin : sortedMin l = sortedMin l' := by
      unfold sortedMin
      rw [hs]
    have hmax : sortedMax l = sortedMax l' := by
      unfold sortedMax
      rw [hs]
    by_cases hmm : sortedMin l = sortedMax l
    · rw [buildHistogram_of_eq l hne hmm,
        buildHistogram_of_eq l' hne' (by rw [← hmin, ← hmax]; exact hmm)]
      rw [hmin, h.length_eq]
    · have hmm' : sortedMin l' ≠ sortedMax l' := by
        rw [← hmin, ← hmax]
        exact hmm
      have hlen := buildHistogram_length_of_ne l hne hmm
      have hlen' := buildHistogram_length_of_ne l' hne' hmm'
      apply List.ext_getElem?
      intro i
      by_cases hi : i < 10
      · rw [buildHistogram_of_ne l hne hmm hi, buildHistogram_of_ne l' hne' hmm' hi]
        rw [hmin, hmax, h.length_eq, h.countP_eq]
      · rw [List.getElem?_eq_none (by omega), List.getElem?_eq_none (by omega)]

lemma buildLatencyDistribution_perm {l l' : List ℚ} (h : l.Perm l') :
    buildLatencyDistribution l = buildLatencyDistribution l' := by
  by_cases hne : l = []
  · subst hne
    rw [h.symm.eq_nil]
  · have hne' : l' ≠ [] := by
      intro hl
      exact hne ((hl ▸ h).eq_nil)
    rw [buildLatencyDistribution_of_ne l hne, buildLatencyDistribution_of_ne l' hne',
      insertionSort_perm_eq h, h.length_eq]

lemma fastestLatency_perm {l l' : List ℚ} (h : l.Perm l') :
    fastestLatency l = fastestLatency l' := by
  by_cases hne : l = []
  · subst hne
    rw [h.symm.eq_nil]
  · have hne' : l' ≠ [] := by
      intro hl
      exact hne ((hl ▸ h).eq_nil)
    obtain ⟨hm, hb⟩ := fastestLatency_spec l hne
    obtain ⟨hm', hb'⟩ := fastestLatency_spec l' hne'
    exact le_antisymm (hb _ (h.mem_iff.mpr hm')) (hb' _ (h.mem_iff.mp hm))

lemma slowestLatency_perm {l l' : List ℚ} (h : l.Perm l') :
    slowestLatency l = slowestLatency l' := by
  by_cases hne : l = []
  · subst hne
    rw [h.symm.eq_nil]
  · have hne' : l' ≠ [] := by
      intro hl
      exact hne ((hl ▸ h).eq_nil)
    obtain ⟨hm, hb⟩ := slowestLatency_spec l hne
    obtain ⟨hm', hb'⟩ := slowestLatency_spec l' hne'
    exact le_antisymm (hb' _ (h.mem_iff.mp hm)) (hb _ (h.mem_iff.mpr hm'))

/-- C9: the aggregation functions are pure Lean functions of the latency
collection (no hidden state), so repeated invocation is literally the same
value; beyond that, each aggregate depends only on the multiset of
latencies — any permutation of the collection yields the identical report —
and the sort operates on a rearranged copy (a permutation) of the input,
the input list itself being unchanged. -/
theorem aggregation_pure_deterministic (l l' : List ℚ) (h : l.Perm l') :
    buildHistogram l 10 = buildHistogram l 10 ∧
    buildHistogram l 10 = buildHistogram l' 10 ∧
    buildLatencyDistribution l = buildLatencyDistribution l' ∧
    averageLatency l = averageLatency l' ∧
    fastestLatency l = fastestLatency l' ∧
    slowestLatency l = slowestLatency l' ∧
    (l.insertionSort (· ≤ ·)).Perm l := by
  refine ⟨rfl, buildHistogram_perm h, buildLatencyDistribution_perm h, ?_,
    fastestLatency_perm h, slowestLatency_perm h, List.perm_insertionSort _ l⟩
  unfold averageLatency
  rw [h.length_eq, h.sum_eq]

/-- C9 witness: the permuted collections `[1, 2]` and `[2, 1]` produce the
identical aggregates. -/
theorem aggregation_pure_deterministic_witness :
    buildHistogram [(1 : ℚ), 2] 10 = buildHistogram [(2 : ℚ), 1] 10 ∧
    buildLatencyDistribution [(1 : ℚ), 2] = buildLatencyDistribution [(2 : ℚ), 1] ∧
    averageLatency [(1 : ℚ), 2] = averageLatency [(2 : ℚ), 1] ∧
    fastestLatency [(1 : ℚ), 2] = fastestLatency [(2 : ℚ), 1] ∧
    slowestLatency [(1 : ℚ), 2] = slowestLatency [(2 : ℚ), 1] := by
  have hperm : ([(1 : ℚ), 2]).Perm [(2 : ℚ), 1] := List.Perm.swap 2 1 []
  have h := aggregation_pure_deterministic [(1 : ℚ), 2] [(2 : ℚ), 1] hperm
  exact ⟨h.2.1, h.2.2.1, h.2.2.2.1, h.2.2.2.2.1, h.2.2.2.2.2.1⟩

end GhzNds
